import Mathlib

/-!
Verification of the dynamic schema extraction and table-materialization
pipeline of `jira_database_etl` (`src/jira_database_etl/__init__.py`).

JSON values (as produced by Python's `json` module from API responses) are
modelled by the inductive type `Json`; Python dictionaries become
association lists with the usual first-occurrence lookup, which coincides
with Python semantics because parsed-JSON dictionaries have unique keys.
Machine-level effects (the SQLAlchemy engine) are modelled by an explicit
store state plus failure oracles; Python exceptions become `Option`/`Except`
or an explicit error component.
-/

set_option maxHeartbeats 1000000

namespace JiraEtl

/-- A JSON value as held in Python after `json.loads` / `response.json()`:
`None`, `bool`, `int`, `str`, `list`, `dict` (with string keys).
JSON floats are outside the model; the repository's values of interest are
strings, ints, objects and arrays. -/
inductive Json where
  | null : Json
  | bool (b : Bool) : Json
  | num (n : Int) : Json
  | str (s : String) : Json
  | arr (items : List Json) : Json
  | obj (fields : List (String × Json)) : Json

mutual

/-- Structural equality test on `Json` (Python `==` on parsed JSON values). -/
def beqJson : Json → Json → Bool
  | Json.null, Json.null => true
  | Json.bool a, Json.bool b => a == b
  | Json.num a, Json.num b => a == b
  | Json.str a, Json.str b => a == b
  | Json.arr a, Json.arr b => beqJsonList a b
  | Json.obj a, Json.obj b => beqJsonFields a b
  | _, _ => false

/-- Elementwise equality of JSON arrays. -/
def beqJsonList : List Json → List Json → Bool
  | [], [] => true
  | a :: as, b :: bs => beqJson a b && beqJsonList as bs
  | _, _ => false

/-- Elementwise equality of JSON object field lists. -/
def beqJsonFields : List (String × Json) → List (String × Json) → Bool
  | [], [] => true
  | (k, v) :: as, (k', v') :: bs => k == k' && beqJson v v' && beqJsonFields as bs
  | _, _ => false

end

mutual

theorem beqJson_iff : ∀ (a b : Json), beqJson a b = true ↔ a = b
  | Json.null, b => by cases b <;> simp [beqJson]
  | Json.bool x, b => by cases b <;> simp [beqJson]
  | Json.num x, b => by cases b <;> simp [beqJson]
  | Json.str x, b => by cases b <;> simp [beqJson]
  | Json.arr xs, b => by
      cases b <;> simp [beqJson]
      exact beqJsonList_iff xs _
  | Json.obj fs, b => by
      cases b <;> simp [beqJson]
      exact beqJsonFields_iff fs _

theorem beqJsonList_iff : ∀ (as bs : List Json), beqJsonList as bs = true ↔ as = bs
  | [], bs => by cases bs <;> simp [beqJsonList]
  | a :: as, bs => by
      cases bs with
      | nil => simp [beqJsonList]
      | cons b bs =>
          simp [beqJsonList, Bool.and_eq_true, beqJson_iff a b, beqJsonList_iff as bs]

theorem beqJsonFields_iff : ∀ (as bs : List (String × Json)),
    beqJsonFields as bs = true ↔ as = bs
  | [], bs => by cases bs <;> simp [beqJsonFields]
  | (k, v) :: as, bs => by
      cases bs with
      | nil => simp [beqJsonFields]
      | cons b bs =>
          obtain ⟨k', v'⟩ := b
          simp [beqJsonFields, Bool.and_eq_true, beqJson_iff v v',
            beqJsonFields_iff as bs, and_assoc]

end

instance : DecidableEq Json := fun a b =>
  decidable_of_iff (beqJson a b = true) (beqJson_iff a b)

/-- First-occurrence association-list lookup: Python `dict` access on a dict
with unique keys. `none` models the key being absent. -/
def lookupField : List (String × Json) → String → Option Json
  | [], _ => none
  | (k, v) :: rest, key => if k = key then some v else lookupField rest key

/-- Python `d[k] = v` on a dict: overwrite the existing binding in place,
or append a new one. -/
def setField : List (String × Json) → String → Json → List (String × Json)
  | [], k, v => [(k, v)]
  | (k', v') :: rest, k, v =>
      if k' = k then (k, v) :: rest else (k', v') :: setField rest k v

/-- Python `d.get(k)` on a dict: `None` when the key is absent. -/
def pyGet (fields : List (String × Json)) (k : String) : Json :=
  (lookupField fields k).getD Json.null

/-- Python `isinstance(v, (dict, list))`. -/
def Json.isContainer : Json → Bool
  | Json.arr _ => true
  | Json.obj _ => true
  | _ => false

/-- Python `isinstance(v, dict)`. -/
def Json.isObj : Json → Bool
  | Json.obj _ => true
  | _ => false

/-- Python `isinstance(v, list)`. -/
def Json.isList : Json → Bool
  | Json.arr _ => true
  | _ => false

/-- Python `d.get(k)` where `d` may be any value: raises `AttributeError`
(`none`) when `d` is not a dict, otherwise returns the value, with `None`
for an absent key. -/
def getAttr : Json → String → Option Json
  | Json.obj fs, k => some (pyGet fs k)
  | _, _ => none

-- =========================
-- extract_path  (source lines 126-134)
-- =========================

/-- The loop body of `extract_path` over the already-split path segments:

```python
for p in path.split("."):
    if not isinstance(obj, dict):
        return []
    obj = obj.get(p, [])
    if obj is None:
        return []
return obj
``` -/
def extractGo : Json → List String → Json
  | o, [] => o
  | o, p :: ps =>
    match o with
    | Json.obj fields =>
      match lookupField fields p with
      | none => extractGo (Json.arr []) ps
      | some Json.null => Json.arr []
      | some v => extractGo v ps
    | _ => Json.arr []

/-- Python `path.split(".")` at the character-list level: split on every
separator occurrence, keeping empty segments (`"".split(".") == [""]`). -/
def splitOnChar (sep : Char) : List Char → List (List Char)
  | [] => [[]]
  | c :: rest =>
      let r := splitOnChar sep rest
      if c = sep then [] :: r
      else
        match r with
        | [] => [[c]]
        | g :: gs => (c :: g) :: gs

/-- Python `path.split(".")`. -/
def pySplit (sep : Char) (s : String) : List String :=
  (splitOnChar sep s.data).map String.mk

/-- `extract_path(obj, path)`: safe deep path extraction. -/
def extract_path (obj : Json) (path : String) : Json :=
  extractGo obj (pySplit '.' path)

/-- Modelled from the spec (§4.1, §8): strict resolution of a segment list —
succeeds only when every step looks a present, non-null value up in a
mapping; the final value is returned whatever its type. Used to state the
`extract_path` contract. -/
def resolvePath : Json → List String → Option Json
  | o, [] => some o
  | o, p :: ps =>
    match o with
    | Json.obj fields =>
      match lookupField fields p with
      | none => none
      | some Json.null => none
      | some v => resolvePath v ps
    | _ => none

-- =========================
-- infer_columns  (source lines 137-142)
-- =========================

/-- Adding one element to the growing set of columns, preserving
first-insertion order (the model of Python's `cols.update(r.keys())`:
set semantics, order abstracted as insertion order). -/
def insertNew (cols : List String) (k : String) : List String :=
  if k ∈ cols then cols else cols ++ [k]

/-- One iteration of the `infer_columns` loop:
`if isinstance(r, dict): cols.update(r.keys())`. -/
def addKeys (cols : List String) : Json → List String
  | Json.obj fields => fields.foldl (fun cs kv => insertNew cs kv.1) cols
  | _ => cols

/-- `infer_columns(rows)`: the union of the key sets of the dict elements,
returned as a list. -/
def infer_columns (rows : List Json) : List String :=
  rows.foldl addKeys []

-- =========================
-- Lemmas about extract_path
-- =========================

theorem extractGo_arr_nil (ps : List String) : extractGo (Json.arr []) ps = Json.arr [] := by
  cases ps <;> rfl

theorem extractGo_resolve : ∀ (segs : List String) (o : Json),
    extractGo o segs = (resolvePath o segs).getD (Json.arr []) := by
  intro segs
  induction segs with
  | nil => intro o; rfl
  | cons p ps ih =>
    intro o
    cases o with
    | obj fields =>
        cases h : lookupField fields p with
        | none =>
            simp only [extractGo, resolvePath, h, Option.getD_none]
            exact extractGo_arr_nil ps
        | some v =>
            cases v <;> simp only [extractGo, resolvePath, h, Option.getD_none] <;>
              exact ih _
    | null => rfl
    | bool b => rfl
    | num n => rfl
    | str s => rfl
    | arr l => rfl

-- =========================
-- Lemmas about infer_columns
-- =========================

theorem mem_insertNew (cols : List String) (k c : String) :
    c ∈ insertNew cols k ↔ c ∈ cols ∨ c = k := by
  unfold insertNew
  split
  · constructor
    · exact fun h => Or.inl h
    · rintro (h | rfl)
      · exact h
      · assumption
  · simp [List.mem_append]

theorem mem_foldl_insertNew (fields : List (String × Json)) :
    ∀ (cols : List String) (c : String),
    c ∈ fields.foldl (fun cs kv => insertNew cs kv.1) cols ↔
      c ∈ cols ∨ c ∈ fields.map Prod.fst := by
  induction fields with
  | nil => simp
  | cons kv rest ih =>
      intro cols c
      simp only [List.foldl_cons, ih, mem_insertNew, List.map_cons, List.mem_cons]
      tauto

theorem mem_addKeys (cols : List String) (r : Json) (c : String) :
    c ∈ addKeys cols r ↔
      c ∈ cols ∨ ∃ fs, r = Json.obj fs ∧ c ∈ fs.map Prod.fst := by
  cases r with
  | obj fields => simp [addKeys, mem_foldl_insertNew]
  | null => simp [addKeys]
  | bool b => simp [addKeys]
  | num n => simp [addKeys]
  | str s => simp [addKeys]
  | arr l => simp [addKeys]

theorem mem_foldl_addKeys (rows : List Json) :
    ∀ (cols : List String) (c : String),
    c ∈ rows.foldl addKeys cols ↔
      c ∈ cols ∨ ∃ fs, Json.obj fs ∈ rows ∧ c ∈ fs.map Prod.fst := by
  induction rows with
  | nil => simp
  | cons r rest ih =>
      intro cols c
      simp only [List.foldl_cons, ih, mem_addKeys, List.mem_cons]
      constructor
      · rintro ((h | ⟨fs, rfl, hc⟩) | ⟨fs, hmem, hc⟩)
        · exact Or.inl h
        · exact Or.inr ⟨fs, Or.inl rfl, hc⟩
        · exact Or.inr ⟨fs, Or.inr hmem, hc⟩
      · rintro (h | ⟨fs, (rfl | hmem), hc⟩)
        · exact Or.inl (Or.inl h)
        · exact Or.inl (Or.inr ⟨fs, rfl, hc⟩)
        · exact Or.inr ⟨fs, hmem, hc⟩

theorem mem_infer_columns (rows : List Json) (c : String) :
    c ∈ infer_columns rows ↔ ∃ fs, Json.obj fs ∈ rows ∧ c ∈ fs.map Prod.fst := by
  simp [infer_columns, mem_foldl_addKeys]

-- =========================
-- json.dumps(v, ensure_ascii=False)  (used at source line 165)
-- =========================

/-- The character `\x7b` (left curly brace). -/
def lbrace : Char := Char.ofNat 123

/-- The character `\x7d` (right curly brace). -/
def rbrace : Char := Char.ofNat 125

/-- Lower-case hexadecimal digit character of `n < 16`, as Python's `json`
emits them: code 48 + n for a decimal digit, 87 + n for `a`-`f`. -/
def hexDigitChar (n : Nat) : Char :=
  Char.ofNat (if n < 10 then 48 + n else 87 + n)

/-- How `json.dumps(..., ensure_ascii=False)` renders one character of a
string: `"` and `\` get a backslash escape, the usual control-character
shorthands apply, any other control character becomes `\u00XX`, and every
remaining character — non-ASCII included — is emitted verbatim. -/
def escChar (c : Char) : List Char :=
  if c = '\"' then ['\\', '\"']
  else if c = '\\' then ['\\', '\\']
  else if c = '\n' then ['\\', 'n']
  else if c = '\t' then ['\\', 't']
  else if c = '\r' then ['\\', 'r']
  else if c = Char.ofNat 8 then ['\\', 'b']
  else if c = Char.ofNat 12 then ['\\', 'f']
  else if c.toNat < 32 then
    ['\\', 'u', '0', '0', hexDigitChar (c.toNat / 16), hexDigitChar (c.toNat % 16)]
  else [c]

/-- A JSON string literal: quote, escaped body, quote. -/
def escString (s : String) : List Char :=
  '\"' :: (s.data.map escChar).flatten ++ ['\"']

/-- Decimal rendering of a natural number (Python `str`). -/
def natChars (n : Nat) : List Char :=
  if n = 0 then ['0'] else (Nat.digits 10 n).reverse.map hexDigitChar

/-- Decimal rendering of an integer (Python `str`). -/
def intChars (i : Int) : List Char :=
  if i < 0 then '-' :: natChars i.natAbs else natChars i.toNat

mutual

/-- `json.dumps(v, ensure_ascii=False)` with the default separators
`", "` and `": "`, as a character list. -/
def dumpChars : Json → List Char
  | Json.null => ['n', 'u', 'l', 'l']
  | Json.bool true => ['t', 'r', 'u', 'e']
  | Json.bool false => ['f', 'a', 'l', 's', 'e']
  | Json.num i => intChars i
  | Json.str s => escString s
  | Json.arr [] => ['[', ']']
  | Json.arr (x :: xs) => '[' :: dumpItems x xs ++ [']']
  | Json.obj [] => [lbrace, rbrace]
  | Json.obj (f :: fs) => lbrace :: dumpFields f fs ++ [rbrace]
termination_by v => sizeOf v

/-- The comma-joined members of a non-empty JSON array. -/
def dumpItems : Json → List Json → List Char
  | x, [] => dumpChars x
  | x, y :: ys => dumpChars x ++ ',' :: ' ' :: dumpItems y ys
termination_by x xs => 1 + sizeOf x + sizeOf xs

/-- The comma-joined `"key": value` members of a non-empty JSON object. -/
def dumpFields : (String × Json) → List (String × Json) → List Char
  | (k, v), [] => escString k ++ ':' :: ' ' :: dumpChars v
  | (k, v), f :: fs =>
      escString k ++ ':' :: ' ' :: dumpChars v ++ ',' :: ' ' :: dumpFields f fs
termination_by f fs => 1 + sizeOf f + sizeOf fs

end

/-- `json.dumps(v, ensure_ascii=False)`. -/
def dumps (v : Json) : String := String.mk (dumpChars v)

-- =========================
-- json.loads on the canonical output of dumps
-- =========================

/-- Value of one hexadecimal digit character. -/
def hexVal (c : Char) : Option Nat :=
  if c.isDigit then some (c.toNat - 48)
  else if 'a' ≤ c ∧ c ≤ 'f' then some (c.toNat - 87)
  else if 'A' ≤ c ∧ c ≤ 'F' then some (c.toNat - 55)
  else none

/-- Split off the longest leading run of decimal digits. -/
def parseDigitRun : List Char → List Char × List Char
  | [] => ([], [])
  | c :: rest =>
      if c.isDigit then
        let p := parseDigitRun rest
        (c :: p.1, p.2)
      else ([], c :: rest)

/-- Numeric value of a digit run (most significant digit first). -/
def natOfDigitRun (ds : List Char) : Nat :=
  Nat.ofDigits 10 ((ds.map (fun c => c.toNat - 48)).reverse)

/-- Parse the body of a JSON string literal (the opening quote already
consumed), undoing the escapes `dumps` can produce, up to the closing
quote; returns the decoded characters and the remaining input. -/
def parseStrBody : List Char → Option (List Char × List Char)
  | [] => none
  | c :: rest =>
      if c = '\"' then some ([], rest)
      else if c = '\\' then
        match rest with
        | [] => none
        | e :: rest2 =>
            if e = '\"' then (fun p => ('\"' :: p.1, p.2)) <$> parseStrBody rest2
            else if e = '\\' then (fun p => ('\\' :: p.1, p.2)) <$> parseStrBody rest2
            else if e = 'n' then (fun p => ('\n' :: p.1, p.2)) <$> parseStrBody rest2
            else if e = 't' then (fun p => ('\t' :: p.1, p.2)) <$> parseStrBody rest2
            else if e = 'r' then (fun p => ('\r' :: p.1, p.2)) <$> parseStrBody rest2
            else if e = 'b' then
              (fun p => (Char.ofNat 8 :: p.1, p.2)) <$> parseStrBody rest2
            else if e = 'f' then
              (fun p => (Char.ofNat 12 :: p.1, p.2)) <$> parseStrBody rest2
            else if e = 'u' then
              match rest2 with
              | h1 :: h2 :: h3 :: h4 :: rest3 =>
                  match hexVal h1, hexVal h2, hexVal h3, hexVal h4 with
                  | some v1, some v2, some v3, some v4 =>
                      (fun p => (Char.ofNat (((v1 * 16 + v2) * 16 + v3) * 16 + v4) :: p.1, p.2))
                        <$> parseStrBody rest3
                  | _, _, _, _ => none
              | _ => none
            else none
      else (fun p => (c :: p.1, p.2)) <$> parseStrBody rest

mutual

/-- Fueled recursive-descent parser for one JSON value in the canonical
form emitted by `dumps`; returns the value and the remaining input. -/
def parseVal : Nat → List Char → Option (Json × List Char)
  | 0, _ => none
  | _ + 1, [] => none
  | fuel + 1, c :: rest =>
      if c = 'n' then
        match rest with
        | 'u' :: 'l' :: 'l' :: r => some (Json.null, r)
        | _ => none
      else if c = 't' then
        match rest with
        | 'r' :: 'u' :: 'e' :: r => some (Json.bool true, r)
        | _ => none
      else if c = 'f' then
        match rest with
        | 'a' :: 'l' :: 's' :: 'e' :: r => some (Json.bool false, r)
        | _ => none
      else if c = '\"' then
        match parseStrBody rest with
        | some (cs, r) => some (Json.str (String.mk cs), r)
        | none => none
      else if c = '-' then
        match parseDigitRun rest with
        | ([], _) => none
        | (ds, r) => some (Json.num (-(natOfDigitRun ds : Int)), r)
      else if c.isDigit then
        match parseDigitRun (c :: rest) with
        | (ds, r) => some (Json.num (natOfDigitRun ds), r)
      else if c = '[' then
        match rest with
        | [] => none
        | r0 :: r =>
            if r0 = ']' then some (Json.arr [], r)
            else
              match parseItems fuel (r0 :: r) with
              | some (items, r2) => some (Json.arr items, r2)
              | none => none
      else if c = lbrace then
        match rest with
        | [] => none
        | r0 :: r =>
            if r0 = rbrace then some (Json.obj [], r)
            else
              match parseFieldList fuel (r0 :: r) with
              | some (fs, r2) => some (Json.obj fs, r2)
              | none => none
      else none

/-- Parse the members of a non-empty array up to and including `]`. -/
def parseItems : Nat → List Char → Option (List Json × List Char)
  | 0, _ => none
  | fuel + 1, input =>
      match parseVal fuel input with
      | none => none
      | some (v, r) =>
          match r with
          | ']' :: r2 => some ([v], r2)
          | ',' :: ' ' :: r2 =>
              match parseItems fuel r2 with
              | some (vs, r3) => some (v :: vs, r3)
              | none => none
          | _ => none

/-- Parse the members of a non-empty object up to and including the
closing brace. -/
def parseFieldList : Nat → List Char → Option (List (String × Json) × List Char)
  | 0, _ => none
  | fuel + 1, input =>
      match input with
      | [] => none
      | c :: rest =>
          if c = '\"' then
            match parseStrBody rest with
            | some (kcs, r1) =>
                match r1 with
                | ':' :: ' ' :: r2 =>
                    match parseVal fuel r2 with
                    | some (v, r3) =>
                        match r3 with
                        | [] => none
                        | c2 :: r4 =>
                            if c2 = ',' then
                              match r4 with
                              | ' ' :: r5 =>
                                  match parseFieldList fuel r5 with
                                  | some (fs, r6) => some ((String.mk kcs, v) :: fs, r6)
                                  | none => none
                              | _ => none
                            else if c2 = rbrace then some ([(String.mk kcs, v)], r4)
                            else none
                    | none => none
                | _ => none
            | none => none
          else none

end

/-- `json.loads` restricted to the canonical text `dumps` produces: parse
one value and require the input to be exhausted. -/
def loads (s : String) : Option Json :=
  match parseVal (s.data.length + 1) s.data with
  | some (v, []) => some v
  | _ => none

/-- Input whose first character (if any) is not a decimal digit; parsing a
number stops correctly in front of such a remainder. -/
def numSafe : List Char → Prop
  | [] => True
  | c :: _ => c.isDigit = false

-- =========================
-- Round-trip lemmas: loads (dumps v) = some v
-- =========================

theorem hexVal_hexDigitChar : ∀ d, d < 16 → hexVal (hexDigitChar d) = some d := by decide

theorem hexDigitChar_isDigit : ∀ d, d < 10 → (hexDigitChar d).isDigit = true := by decide

theorem natChars_digits (n : Nat) : ∀ c ∈ natChars n, c.isDigit = true := by
  unfold natChars
  split
  · intro c hc
    simp only [List.mem_singleton] at hc
    subst hc; decide
  · intro c hc
    rw [List.mem_map] at hc
    obtain ⟨d, hd, rfl⟩ := hc
    exact hexDigitChar_isDigit d
      (Nat.digits_lt_base (by norm_num) (List.mem_reverse.mp hd))

theorem natChars_ne_nil (n : Nat) : natChars n ≠ [] := by
  unfold natChars
  split
  · simp
  · simp only [ne_eq, List.map_eq_nil_iff, List.reverse_eq_nil_iff]
    exact Nat.digits_ne_nil_iff_ne_zero.mpr (by assumption)

theorem parseDigitRun_append (ds rest : List Char)
    (hds : ∀ c ∈ ds, c.isDigit = true) (hrest : numSafe rest) :
    parseDigitRun (ds ++ rest) = (ds, rest) := by
  induction ds with
  | nil =>
      cases rest with
      | nil => rfl
      | cons c r =>
          simp only [numSafe] at hrest
          simp [parseDigitRun, hrest]
  | cons c ds ih =>
      have hc : c.isDigit = true := hds c (List.mem_cons_self c ds)
      have ih' := ih (fun x hx => hds x (List.mem_cons_of_mem c hx))
      simp only [List.cons_append, parseDigitRun, hc, if_pos, List.append_eq, ih']

theorem natOfDigitRun_natChars (n : Nat) : natOfDigitRun (natChars n) = n := by
  unfold natChars
  split
  · subst n
    simp [natOfDigitRun, Nat.ofDigits]
  · unfold natOfDigitRun
    rw [List.map_map, List.map_reverse, List.reverse_reverse]
    have hfun : ∀ x, x < 10 → ((fun c => c.toNat - 48) ∘ hexDigitChar) x = id x := by decide
    have hmap : (Nat.digits 10 n).map ((fun c => c.toNat - 48) ∘ hexDigitChar)
        = Nat.digits 10 n := by
      rw [List.map_congr_left
        (fun d hd => hfun d (Nat.digits_lt_base (by norm_num) hd)), List.map_id]
    rw [hmap, Nat.ofDigits_digits]


theorem parse_u_esc (d1 d2 : Nat) (hd1 : d1 < 16) (hd2 : d2 < 16) (L : List Char) :
    parseStrBody ('\\' :: 'u' :: '0' :: '0' :: hexDigitChar d1 :: hexDigitChar d2 :: L)
      = (fun p => (Char.ofNat (d1 * 16 + d2) :: p.1, p.2)) <$> parseStrBody L := by
  rw [parseStrBody.eq_def]
  simp only [hexVal_hexDigitChar _ hd1, hexVal_hexDigitChar _ hd2,
    show hexVal '0' = some 0 from rfl]
  have harith : ((0 * 16 + 0) * 16 + d1) * 16 + d2 = d1 * 16 + d2 := by ring
  simp [harith]

theorem parseStrBody_esc : ∀ (cs rest : List Char),
    parseStrBody ((cs.map escChar).flatten ++ '\"' :: rest) = some (cs, rest) := by
  intro cs
  induction cs with
  | nil =>
      intro rest
      rw [List.map_nil, List.flatten_nil, List.nil_append, parseStrBody.eq_def]
      simp
  | cons c cs ih =>
      intro rest
      rw [List.map_cons, List.flatten_cons, List.append_assoc]
      by_cases h1 : c = '\"'
      · subst h1
        rw [show escChar '\"' = ['\\', '\"'] from rfl, List.cons_append, List.cons_append,
          List.nil_append, parseStrBody.eq_def]
        simp [ih rest]
      · by_cases h2 : c = '\\'
        · subst h2
          rw [show escChar '\\' = ['\\', '\\'] from rfl, List.cons_append, List.cons_append,
            List.nil_append, parseStrBody.eq_def]
          simp [ih rest]
        · by_cases h3 : c = '\n'
          · subst h3
            rw [show escChar '\n' = ['\\', 'n'] from rfl, List.cons_append, List.cons_append,
              List.nil_append, parseStrBody.eq_def]
            simp [ih rest]
          · by_cases h4 : c = '\t'
            · subst h4
              rw [show escChar '\t' = ['\\', 't'] from rfl, List.cons_append, List.cons_append,
                List.nil_append, parseStrBody.eq_def]
              simp [ih rest]
            · by_cases h5 : c = '\r'
              · subst h5
                rw [show escChar '\r' = ['\\', 'r'] from rfl, List.cons_append, List.cons_append,
                  List.nil_append, parseStrBody.eq_def]
                simp [ih rest]
              · by_cases h6 : c = Char.ofNat 8
                · subst h6
                  rw [show escChar (Char.ofNat 8) = ['\\', 'b'] from rfl, List.cons_append,
                    List.cons_append, List.nil_append, parseStrBody.eq_def]
                  simp [ih rest]
                · by_cases h7 : c = Char.ofNat 12
                  · subst h7
                    rw [show escChar (Char.ofNat 12) = ['\\', 'f'] from rfl, List.cons_append,
                      List.cons_append, List.nil_append, parseStrBody.eq_def]
                    simp [ih rest]
                  · by_cases h8 : c.toNat < 32
                    · have hesc : escChar c = ['\\', 'u', '0', '0',
                          hexDigitChar (c.toNat / 16), hexDigitChar (c.toNat % 16)] := by
                        unfold escChar
                        rw [if_neg h1, if_neg h2, if_neg h3, if_neg h4, if_neg h5,
                          if_neg h6, if_neg h7, if_pos h8]
                      rw [hesc]
                      simp only [List.cons_append, List.nil_append]
                      rw [parse_u_esc _ _ (by omega) (Nat.mod_lt _ (by norm_num)), ih rest]
                      have hcode : c.toNat / 16 * 16 + c.toNat % 16 = c.toNat := by omega
                      rw [hcode, Char.ofNat_toNat]
                      rfl
                    · have hesc : escChar c = [c] := by
                        unfold escChar
                        rw [if_neg h1, if_neg h2, if_neg h3, if_neg h4, if_neg h5,
                          if_neg h6, if_neg h7, if_neg h8]
                      rw [hesc, List.cons_append, List.nil_append, parseStrBody.eq_def]
                      simp [h1, h2, ih rest]


mutual

/-- Fuel sufficient for `parseVal` to parse the canonical rendering of `v`. -/
def jfuel : Json → Nat
  | Json.arr [] => 1
  | Json.arr (x :: xs) => 1 + jfuelItems x xs
  | Json.obj [] => 1
  | Json.obj (f :: fs) => 1 + jfuelFields f fs
  | _ => 1
termination_by v => sizeOf v

/-- Fuel sufficient for `parseItems` on a non-empty member list. -/
def jfuelItems : Json → List Json → Nat
  | x, [] => jfuel x + 1
  | x, y :: ys => jfuel x + jfuelItems y ys + 1
termination_by x xs => 1 + sizeOf x + sizeOf xs

/-- Fuel sufficient for `parseFieldList` on a non-empty field list. -/
def jfuelFields : (String × Json) → List (String × Json) → Nat
  | (_, v), [] => jfuel v + 1
  | (_, v), f :: fs => jfuel v + jfuelFields f fs + 1
termination_by f fs => 1 + sizeOf f + sizeOf fs

end

theorem jfuel_pos (v : Json) : 1 ≤ jfuel v := by
  cases v with
  | arr l => cases l <;> simp [jfuel]
  | obj l => cases l <;> simp [jfuel]
  | null => simp [jfuel]
  | bool b => simp [jfuel]
  | num n => simp [jfuel]
  | str s => simp [jfuel]

theorem jfuelItems_pos (x : Json) (xs : List Json) : 1 ≤ jfuelItems x xs := by
  cases xs <;> simp [jfuelItems]

theorem jfuelFields_pos (f : String × Json) (fs : List (String × Json)) :
    1 ≤ jfuelFields f fs := by
  obtain ⟨k, v⟩ := f
  cases fs <;> simp [jfuelFields]

/-- The rendering of any value starts with a character other than `]`. -/
theorem dumpChars_head (v : Json) : ∃ c cs, dumpChars v = c :: cs ∧ c ≠ ']' := by
  cases v with
  | null => exact ⟨'n', ['u', 'l', 'l'], by simp [dumpChars], by decide⟩
  | bool b =>
      cases b with
      | true => exact ⟨'t', ['r', 'u', 'e'], by simp [dumpChars], by decide⟩
      | false => exact ⟨'f', ['a', 'l', 's', 'e'], by simp [dumpChars], by decide⟩
  | num i =>
      have hdc : dumpChars (Json.num i) = intChars i := by simp [dumpChars]
      rw [hdc]
      unfold intChars
      split
      · exact ⟨'-', _, rfl, by decide⟩
      · obtain ⟨c, cs, hc⟩ := List.exists_cons_of_ne_nil (natChars_ne_nil i.toNat)
        refine ⟨c, cs, hc, ?_⟩
        have hd : c.isDigit = true := natChars_digits _ c (hc ▸ List.mem_cons_self c cs)
        intro hEq
        subst hEq
        exact absurd hd (by decide)
  | str s =>
      exact ⟨'\"', (s.data.map escChar).flatten ++ ['\"'],
        by simp [dumpChars, escString], by decide⟩
  | arr l =>
      cases l with
      | nil => exact ⟨'[', [']'], by simp [dumpChars], by decide⟩
      | cons x xs => exact ⟨'[', dumpItems x xs ++ [']'], by simp [dumpChars], by decide⟩
  | obj l =>
      cases l with
      | nil => exact ⟨lbrace, [rbrace], by simp [dumpChars], by decide⟩
      | cons f fs => exact ⟨lbrace, dumpFields f fs ++ [rbrace], by simp [dumpChars], by decide⟩

/-- The joined members of a non-empty array start with a character other
than `]`. -/
theorem dumpItems_head (x : Json) (xs : List Json) :
    ∃ c cs, dumpItems x xs = c :: cs ∧ c ≠ ']' := by
  obtain ⟨c, cs, hc, hne⟩ := dumpChars_head x
  cases xs with
  | nil => exact ⟨c, cs, by simp [dumpItems, hc], hne⟩
  | cons y ys =>
      exact ⟨c, cs ++ ',' :: ' ' :: dumpItems y ys, by simp [dumpItems, hc], hne⟩

/-- The joined fields of a non-empty object start with a quote. -/
theorem dumpFields_head (f : String × Json) (fs : List (String × Json)) :
    ∃ cs, dumpFields f fs = '\"' :: cs := by
  obtain ⟨k, v⟩ := f
  cases fs with
  | nil =>
      exact ⟨(k.data.map escChar).flatten ++ '\"' :: ':' :: ' ' :: dumpChars v,
        by simp [dumpFields, escString]⟩
  | cons f' fs' =>
      exact ⟨(k.data.map escChar).flatten ++
          '\"' :: ':' :: ' ' :: (dumpChars v ++ ',' :: ' ' :: dumpFields f' fs'),
        by simp [dumpFields, escString]⟩

/-- A decimal digit is none of the value-leading characters the parser
tests for first. -/
theorem digit_head_ne (c : Char) (h : c.isDigit = true) :
    c ≠ 'n' ∧ c ≠ 't' ∧ c ≠ 'f' ∧ c ≠ '\"' ∧ c ≠ '-' := by
  refine ⟨?_, ?_, ?_, ?_, ?_⟩ <;> (rintro rfl; exact absurd h (by decide))


theorem numSafe_cons (c : Char) (l : List Char) : numSafe (c :: l) ↔ c.isDigit = false :=
  Iff.rfl

theorem mk_data_eq (s : String) : String.mk s.data = s := rfl

theorem lbrace_conds : lbrace ≠ 'n' ∧ lbrace ≠ 't' ∧ lbrace ≠ 'f' ∧ lbrace ≠ '\"'
    ∧ lbrace ≠ '-' ∧ lbrace.isDigit = false ∧ lbrace ≠ '[' := by decide

theorem quot_ne_rbrace : ('\"' : Char) ≠ rbrace := by decide

theorem rbrace_ne_comma : rbrace ≠ ',' := by decide

/-- One unfolding of `parseVal` at positive fuel on non-empty input, as a
non-recursive function (used to reason about the parser step by step). -/
def parseValStep (fuel : Nat) (c : Char) (rest : List Char) : Option (Json × List Char) :=
  if c = 'n' then
    match rest with
    | 'u' :: 'l' :: 'l' :: r => some (Json.null, r)
    | _ => none
  else if c = 't' then
    match rest with
    | 'r' :: 'u' :: 'e' :: r => some (Json.bool true, r)
    | _ => none
  else if c = 'f' then
    match rest with
    | 'a' :: 'l' :: 's' :: 'e' :: r => some (Json.bool false, r)
    | _ => none
  else if c = '\"' then
    match parseStrBody rest with
    | some (cs, r) => some (Json.str (String.mk cs), r)
    | none => none
  else if c = '-' then
    match parseDigitRun rest with
    | ([], _) => none
    | (ds, r) => some (Json.num (-(natOfDigitRun ds : Int)), r)
  else if c.isDigit then
    match parseDigitRun (c :: rest) with
    | (ds, r) => some (Json.num (natOfDigitRun ds), r)
  else if c = '[' then
    match rest with
    | [] => none
    | r0 :: r =>
        if r0 = ']' then some (Json.arr [], r)
        else
          match parseItems fuel (r0 :: r) with
          | some (items, r2) => some (Json.arr items, r2)
          | none => none
  else if c = lbrace then
    match rest with
    | [] => none
    | r0 :: r =>
        if r0 = rbrace then some (Json.obj [], r)
        else
          match parseFieldList fuel (r0 :: r) with
          | some (fs, r2) => some (Json.obj fs, r2)
          | none => none
  else none

theorem parseVal_succ (fuel : Nat) (c : Char) (rest : List Char) :
    parseVal (fuel + 1) (c :: rest) = parseValStep fuel c rest := rfl

/-- One unfolding of `parseItems` at positive fuel. -/
def parseItemsStep (fuel : Nat) (input : List Char) : Option (List Json × List Char) :=
  match parseVal fuel input with
  | none => none
  | some (v, r) =>
      match r with
      | ']' :: r2 => some ([v], r2)
      | ',' :: ' ' :: r2 =>
          match parseItems fuel r2 with
          | some (vs, r3) => some (v :: vs, r3)
          | none => none
      | _ => none

theorem parseItems_succ (fuel : Nat) (input : List Char) :
    parseItems (fuel + 1) input = parseItemsStep fuel input := rfl

/-- One unfolding of `parseFieldList` at positive fuel. -/
def parseFieldListStep (fuel : Nat) (input : List Char) :
    Option (List (String × Json) × List Char) :=
  match input with
  | [] => none
  | c :: rest =>
      if c = '\"' then
        match parseStrBody rest with
        | some (kcs, r1) =>
            match r1 with
            | ':' :: ' ' :: r2 =>
                match parseVal fuel r2 with
                | some (v, r3) =>
                    match r3 with
                    | [] => none
                    | c2 :: r4 =>
                        if c2 = ',' then
                          match r4 with
                          | ' ' :: r5 =>
                              match parseFieldList fuel r5 with
                              | some (fs, r6) => some ((String.mk kcs, v) :: fs, r6)
                              | none => none
                          | _ => none
                        else if c2 = rbrace then some ([(String.mk kcs, v)], r4)
                        else none
                | none => none
            | _ => none
        | none => none
      else none

theorem parseFieldList_succ (fuel : Nat) (input : List Char) :
    parseFieldList (fuel + 1) input = parseFieldListStep fuel input := rfl

theorem parse_dump_aux : ∀ fuel : Nat,
    (∀ v rest, jfuel v ≤ fuel → numSafe rest →
      parseVal fuel (dumpChars v ++ rest) = some (v, rest))
  ∧ (∀ x xs rest, jfuelItems x xs ≤ fuel → numSafe rest →
      parseItems fuel (dumpItems x xs ++ ']' :: rest) = some (x :: xs, rest))
  ∧ (∀ g fs rest, jfuelFields g fs ≤ fuel → numSafe rest →
      parseFieldList fuel (dumpFields g fs ++ rbrace :: rest) = some (g :: fs, rest)) := by
  intro fuel
  induction fuel with
  | zero =>
      refine ⟨fun v _ hle _ => absurd hle (by have := jfuel_pos v; omega),
        fun x xs _ hle _ => absurd hle (by have := jfuelItems_pos x xs; omega),
        fun g fs _ hle _ => absurd hle (by have := jfuelFields_pos g fs; omega)⟩
  | succ f ih =>
      obtain ⟨ihV, ihI, ihF⟩ := ih
      refine ⟨?_, ?_, ?_⟩
      · intro v rest hle hsafe
        cases v with
        | null =>
            have hd : dumpChars Json.null = ['n', 'u', 'l', 'l'] := by simp [dumpChars]
            rw [hd]
            rfl
        | bool b =>
            cases b with
            | true =>
                have hd : dumpChars (Json.bool true) = ['t', 'r', 'u', 'e'] := by
                  simp [dumpChars]
                rw [hd]; rfl
            | false =>
                have hd : dumpChars (Json.bool false) = ['f', 'a', 'l', 's', 'e'] := by
                  simp [dumpChars]
                rw [hd]; rfl
        | num i =>
            have hd : dumpChars (Json.num i) = intChars i := by simp [dumpChars]
            rw [hd]
            by_cases hneg : i < 0
            · have hi : intChars i = '-' :: natChars i.natAbs := by
                unfold intChars; rw [if_pos hneg]
              obtain ⟨c0, cs0, hc⟩ := List.exists_cons_of_ne_nil (natChars_ne_nil i.natAbs)
              have hrun : parseDigitRun (natChars i.natAbs ++ rest) = (c0 :: cs0, rest) := by
                rw [parseDigitRun_append _ _ (natChars_digits _) hsafe, hc]
              have hval : -(natOfDigitRun (c0 :: cs0) : Int) = i := by
                rw [← hc, natOfDigitRun_natChars]; omega
              rw [hi]
              simp only [List.cons_append]
              show parseValStep f '-' (natChars i.natAbs ++ rest) = some (Json.num i, rest)
              unfold parseValStep
              simp [hrun, hval]
            · have hi : intChars i = natChars i.toNat := by
                unfold intChars; rw [if_neg hneg]
              obtain ⟨c0, cs0, hc⟩ := List.exists_cons_of_ne_nil (natChars_ne_nil i.toNat)
              have hdig : c0.isDigit = true :=
                natChars_digits _ c0 (hc ▸ List.mem_cons_self c0 cs0)
              obtain ⟨hn1, hn2, hn3, hn4, hn5⟩ := digit_head_ne c0 hdig
              have hrun : parseDigitRun (c0 :: (cs0 ++ rest)) = (c0 :: cs0, rest) := by
                rw [← List.cons_append, ← hc,
                  parseDigitRun_append _ _ (natChars_digits _) hsafe, hc]
              have hval : (natOfDigitRun (c0 :: cs0) : Int) = i := by
                rw [← hc, natOfDigitRun_natChars]; omega
              rw [hi, hc]
              simp only [List.cons_append]
              show parseValStep f c0 (cs0 ++ rest) = some (Json.num i, rest)
              unfold parseValStep
              simp [hn1, hn2, hn3, hn4, hn5, hdig, hrun, hval]
        | str s =>
            have hd : dumpChars (Json.str s) = escString s := by simp [dumpChars]
            rw [hd, escString]
            simp only [List.cons_append, List.append_assoc, List.singleton_append]
            show parseValStep f '\"' ((s.data.map escChar).flatten ++ '\"' :: rest)
              = some (Json.str s, rest)
            unfold parseValStep
            simp [parseStrBody_esc, mk_data_eq]
        | arr l =>
            cases l with
            | nil =>
                have hd : dumpChars (Json.arr []) = ['[', ']'] := by simp [dumpChars]
                rw [hd]; rfl
            | cons x xs =>
                have hd : dumpChars (Json.arr (x :: xs)) = '[' :: dumpItems x xs ++ [']'] := by
                  simp [dumpChars]
                have hjf : jfuelItems x xs ≤ f := by
                  have he : jfuel (Json.arr (x :: xs)) = 1 + jfuelItems x xs := by simp [jfuel]
                  omega
                have hitems := ihI x xs rest hjf hsafe
                obtain ⟨c0, cs0, hc, hne⟩ := dumpItems_head x xs
                rw [hc] at hitems
                simp only [List.cons_append] at hitems
                rw [hd, hc]
                simp only [List.cons_append, List.append_assoc, List.singleton_append]
                show parseValStep f '[' (c0 :: (cs0 ++ ']' :: rest))
                  = some (Json.arr (x :: xs), rest)
                unfold parseValStep
                simp [hne, hitems]
        | obj l =>
            cases l with
            | nil =>
                have hd : dumpChars (Json.obj []) = [lbrace, rbrace] := by simp [dumpChars]
                rw [hd]; rfl
            | cons g fs =>
                have hd : dumpChars (Json.obj (g :: fs))
                    = lbrace :: dumpFields g fs ++ [rbrace] := by
                  simp [dumpChars]
                have hjf : jfuelFields g fs ≤ f := by
                  have he : jfuel (Json.obj (g :: fs)) = 1 + jfuelFields g fs := by simp [jfuel]
                  omega
                have hflds := ihF g fs rest hjf hsafe
                obtain ⟨cs0, hc⟩ := dumpFields_head g fs
                rw [hc] at hflds
                simp only [List.cons_append] at hflds
                rw [hd, hc]
                simp only [List.cons_append, List.append_assoc, List.singleton_append]
                show parseValStep f lbrace ('\"' :: (cs0 ++ rbrace :: rest))
                  = some (Json.obj (g :: fs), rest)
                unfold parseValStep
                obtain ⟨hb1, hb2, hb3, hb4, hb5, hb6, hb7⟩ := lbrace_conds
                simp [hb1, hb2, hb3, hb4, hb5, hb6, hb7, quot_ne_rbrace, hflds]
      · intro x xs rest hle hsafe
        cases xs with
        | nil =>
            have hd : dumpItems x [] = dumpChars x := by simp [dumpItems]
            have hjx : jfuel x ≤ f := by
              have he : jfuelItems x [] = jfuel x + 1 := by simp [jfuelItems]
              omega
            have hv := ihV x (']' :: rest) hjx ((numSafe_cons _ _).mpr (by decide))
            rw [hd]
            show parseItemsStep f (dumpChars x ++ ']' :: rest) = some ([x], rest)
            unfold parseItemsStep
            simp [hv]
        | cons y ys =>
            have hd : dumpItems x (y :: ys) = dumpChars x ++ ',' :: ' ' :: dumpItems y ys := by
              simp [dumpItems]
            have hpos := jfuelItems_pos y ys
            have he : jfuelItems x (y :: ys) = jfuel x + jfuelItems y ys + 1 := by
              simp [jfuelItems]
            have hjx : jfuel x ≤ f := by omega
            have hjy : jfuelItems y ys ≤ f := by omega
            have hv := ihV x (',' :: ' ' :: (dumpItems y ys ++ ']' :: rest)) hjx
              ((numSafe_cons _ _).mpr (by decide))
            have hi2 := ihI y ys rest hjy hsafe
            rw [hd]
            simp only [List.cons_append, List.append_assoc]
            show parseItemsStep f (dumpChars x ++ ',' :: ' ' :: (dumpItems y ys ++ ']' :: rest))
              = some (x :: y :: ys, rest)
            unfold parseItemsStep
            simp [hv, hi2]
      · intro g fs rest hle hsafe
        obtain ⟨k, v⟩ := g
        cases fs with
        | nil =>
            have hd : dumpFields (k, v) [] = escString k ++ ':' :: ' ' :: dumpChars v := by
              simp [dumpFields]
            have hjv : jfuel v ≤ f := by
              have he : jfuelFields (k, v) [] = jfuel v + 1 := by simp [jfuelFields]
              omega
            have hv := ihV v (rbrace :: rest) hjv ((numSafe_cons _ _).mpr (by decide))
            rw [hd, escString]
            simp only [List.cons_append, List.append_assoc, List.singleton_append]
            show parseFieldListStep f ('\"' :: ((k.data.map escChar).flatten
                ++ '\"' :: (':' :: ' ' :: (dumpChars v ++ rbrace :: rest))))
              = some ([(k, v)], rest)
            unfold parseFieldListStep
            simp [parseStrBody_esc, hv, mk_data_eq, rbrace_ne_comma]
        | cons g2 fs2 =>
            have hd : dumpFields (k, v) (g2 :: fs2)
                = escString k ++ ':' :: ' ' :: dumpChars v
                    ++ ',' :: ' ' :: dumpFields g2 fs2 := by
              simp [dumpFields]
            have hpos := jfuelFields_pos g2 fs2
            have he : jfuelFields (k, v) (g2 :: fs2) = jfuel v + jfuelFields g2 fs2 + 1 := by
              simp [jfuelFields]
            have hjv : jfuel v ≤ f := by omega
            have hjf2 : jfuelFields g2 fs2 ≤ f := by omega
            have hv := ihV v (',' :: ' ' :: (dumpFields g2 fs2 ++ rbrace :: rest)) hjv
              ((numSafe_cons _ _).mpr (by decide))
            have hf2 := ihF g2 fs2 rest hjf2 hsafe
            rw [hd, escString]
            simp only [List.cons_append, List.append_assoc, List.singleton_append]
            show parseFieldListStep f ('\"' :: ((k.data.map escChar).flatten
                ++ '\"' :: (':' :: ' ' :: (dumpChars v
                    ++ ',' :: ' ' :: (dumpFields g2 fs2 ++ rbrace :: rest)))))
              = some ((k, v) :: g2 :: fs2, rest)
            unfold parseFieldListStep
            simp [parseStrBody_esc, hv, hf2, mk_data_eq]



mutual

theorem jfuel_le : ∀ v : Json, jfuel v ≤ (dumpChars v).length + 1
  | Json.null => by simp [jfuel]
  | Json.bool b => by cases b <;> simp [jfuel]
  | Json.num i => by simp [jfuel]
  | Json.str s => by simp [jfuel]
  | Json.arr [] => by simp [jfuel]
  | Json.arr (x :: xs) => by
      have h := jfuelItems_le x xs
      have e1 : jfuel (Json.arr (x :: xs)) = 1 + jfuelItems x xs := by simp [jfuel]
      have e2 : (dumpChars (Json.arr (x :: xs))).length = (dumpItems x xs).length + 2 := by
        simp [dumpChars]
      omega
  | Json.obj [] => by simp [jfuel]
  | Json.obj (g :: fs) => by
      have h := jfuelFields_le g fs
      have e1 : jfuel (Json.obj (g :: fs)) = 1 + jfuelFields g fs := by simp [jfuel]
      have e2 : (dumpChars (Json.obj (g :: fs))).length = (dumpFields g fs).length + 2 := by
        simp [dumpChars]
      omega
termination_by v => sizeOf v

theorem jfuelItems_le : ∀ (x : Json) (xs : List Json),
    jfuelItems x xs ≤ (dumpItems x xs).length + 2
  | x, [] => by
      have h := jfuel_le x
      have e1 : jfuelItems x [] = jfuel x + 1 := by simp [jfuelItems]
      have e2 : (dumpItems x []).length = (dumpChars x).length := by simp [dumpItems]
      omega
  | x, y :: ys => by
      have h1 := jfuel_le x
      have h2 := jfuelItems_le y ys
      have e1 : jfuelItems x (y :: ys) = jfuel x + jfuelItems y ys + 1 := by simp [jfuelItems]
      have e2 : (dumpItems x (y :: ys)).length
          = (dumpChars x).length + (dumpItems y ys).length + 2 := by
        simp [dumpItems]
        omega
      omega
termination_by x xs => 1 + sizeOf x + sizeOf xs

theorem jfuelFields_le : ∀ (g : String × Json) (fs : List (String × Json)),
    jfuelFields g fs ≤ (dumpFields g fs).length + 2
  | (k, v), [] => by
      have h := jfuel_le v
      have e1 : jfuelFields (k, v) [] = jfuel v + 1 := by simp [jfuelFields]
      have e2 : (dumpFields (k, v) []).length
          = (escString k).length + (dumpChars v).length + 2 := by
        simp [dumpFields]
        omega
      omega
  | (k, v), g2 :: fs2 => by
      have h1 := jfuel_le v
      have h2 := jfuelFields_le g2 fs2
      have e1 : jfuelFields (k, v) (g2 :: fs2) = jfuel v + jfuelFields g2 fs2 + 1 := by
        simp [jfuelFields]
      have e2 : (dumpFields (k, v) (g2 :: fs2)).length
          = (escString k).length + (dumpChars v).length + (dumpFields g2 fs2).length + 4 := by
        simp [dumpFields]
        omega
      omega
termination_by g fs => 1 + sizeOf g + sizeOf fs

end

/-- `json.dumps` round-trip: the canonical text of any modelled JSON value
parses back to a value deep-equal to the original. -/
theorem loads_dumps (v : Json) : loads (dumps v) = some v := by
  unfold loads dumps
  have hdata : (String.mk (dumpChars v)).data = dumpChars v := rfl
  rw [hdata]
  have h := (parse_dump_aux ((dumpChars v).length + 1)).1 v []
    (le_trans (jfuel_le v) (by omega)) trivial
  rw [List.append_nil] at h
  rw [h]



-- =========================
-- SQL text built by drop_and_create_table (lines 145-153) and
-- insert_rows (lines 169-171)
-- =========================

/-- Python `f'"{c}"'`: wrap an identifier in double quotes; the characters
inside are not escaped. -/
def quoteIdent (c : String) : String := "\"" ++ c ++ "\""

/-- Python `sep.join(parts)`. -/
def joinSep (sep : String) : List String → String
  | [] => ""
  | [x] => x
  | x :: y :: rest => x ++ sep ++ joinSep sep (y :: rest)

/-- `cols_sql = ", ".join([f'"{c}" TEXT' for c in columns])`. -/
def colsSql (columns : List String) : String :=
  joinSep ", " (columns.map (fun c => quoteIdent c ++ " TEXT"))

/-- The SQL text executed by `drop_and_create_table`:
`f'DROP TABLE IF EXISTS "{table}"; CREATE TABLE "{table}" ({cols_sql});'`. -/
def createSql (table : String) (columns : List String) : String :=
  "DROP TABLE IF EXISTS " ++ quoteIdent table ++ "; CREATE TABLE " ++ quoteIdent table
    ++ " (" ++ colsSql columns ++ ");"

/-- The SQL text executed per row by `insert_rows`:
`f'INSERT INTO "{table}" ({col_sql}) VALUES ({placeholders})'`. -/
def insertSql (table : String) (columns : List String) : String :=
  "INSERT INTO " ++ quoteIdent table ++ " (" ++ joinSep "," (columns.map quoteIdent)
    ++ ") VALUES (" ++ joinSep "," (columns.map (fun c => ":" ++ c)) ++ ")"

/-- Lex the body of a standard SQL double-quoted identifier (the opening
quote already consumed): `""` stands for one `"`; the first single `"`
closes the identifier. Returns the identifier characters and the rest. -/
def lexIdentBody : List Char → Option (List Char × List Char)
  | [] => none
  | c :: rest =>
      if c = '\"' then
        match rest with
        | d :: rest2 =>
            if d = '\"' then (fun p => ('\"' :: p.1, p.2)) <$> lexIdentBody rest2
            else some ([], rest)
        | [] => some ([], [])
      else (fun p => (c :: p.1, p.2)) <$> lexIdentBody rest

/-- Lex one double-quoted SQL identifier from the front of the input. -/
def lexQuotedIdent (input : List Char) : Option (String × List Char) :=
  match input with
  | c :: rest =>
      if c = '\"' then (fun p => (String.mk p.1, p.2)) <$> lexIdentBody rest
      else none
  | [] => none

/-- Count the semicolons of an SQL text that lie outside double-quoted
sections — the statement separators an SQL engine would see. The `Bool`
argument and result are the quote state (`true` = inside quotes). -/
def scanSemis : Bool → List Char → Bool × Nat
  | inQ, [] => (inQ, 0)
  | true, c :: rest => if c = '\"' then scanSemis false rest else scanSemis true rest
  | false, c :: rest =>
      if c = '\"' then scanSemis true rest
      else if c = ';' then
        let p := scanSemis false rest
        (p.1, p.2 + 1)
      else scanSemis false rest

-- =========================
-- The relational store and the engine failure oracle
-- =========================

/-- One table: its column list and its inserted rows. -/
abbrev TableState := List String × List (List (String × Json))

/-- The relational store: table name → table state. -/
abbrev Store := List (String × TableState)

/-- Look a table up in the store. -/
def lookupTable : Store → String → Option TableState
  | [], _ => none
  | (t, st) :: rest, name => if t = name then some st else lookupTable rest name

/-- Replace (or add) a table in the store. -/
def setTable : Store → String → TableState → Store
  | [], name, st => [(name, st)]
  | (t, st') :: rest, name, st =>
      if t = name then (name, st) :: rest else (t, st') :: setTable rest name st

/-- Failure oracle for the storage engine: which `CREATE TABLE` statements
and which row `INSERT`s the store rejects (reserved-name collisions, type
errors, constraint violations, a dropped connection, ...). -/
structure FailureModel where
  createFails : String → Bool
  insertFails : String → List (String × Json) → Bool

/-- `drop_and_create_table(engine, table, columns)`: drop the table if it
exists and re-create it empty, in one transaction committed independently
of any later insert; `Except.error` models the raised exception when the
store rejects the statement. -/
def drop_and_create_table (fm : FailureModel) (s : Store) (table : String)
    (columns : List String) : Except Unit Store :=
  if fm.createFails table then Except.error ()
  else Except.ok (setTable s table (columns, []))

-- =========================
-- insert_rows  (source lines 156-173)
-- =========================

/-- The value `insert_rows` binds for column `c` of row `r`:

```python
v = r.get(c)
if isinstance(v, (dict, list)):
    v = json.dumps(v, ensure_ascii=False)
clean[c] = v
``` -/
def cleanValue (r : List (String × Json)) (c : String) : Json :=
  let v := pyGet r c
  if v.isContainer then Json.str (dumps v) else v

/-- The `clean` dict built for one row of `insert_rows`. -/
def cleanRow (columns : List String) (r : List (String × Json)) :
    List (String × Json) :=
  columns.map (fun c => (c, cleanValue r c))

/-- The per-row loop inside the transaction of `insert_rows`: clean and
execute each insert until the first store rejection. -/
def insertLoop (fm : FailureModel) (table : String) (columns : List String) :
    List (List (String × Json)) → Except Unit (List (List (String × Json)))
  | [] => Except.ok []
  | r :: rest =>
      let cr := cleanRow columns r
      if fm.insertFails table cr then Except.error ()
      else
        match insertLoop fm table columns rest with
        | Except.ok more => Except.ok (cr :: more)
        | Except.error e => Except.error e

/-- `insert_rows(engine, table, columns, rows)`: every insert of the call
runs in one transaction (`with engine.begin()`), so the first failing row
rolls the whole call back — `Except.error` leaves the store as it was —
and the exception propagates; on success all cleaned rows are appended. -/
def insert_rows (fm : FailureModel) (s : Store) (table : String)
    (columns : List String) (rows : List (List (String × Json))) : Except Unit Store :=
  match insertLoop fm table columns rows with
  | Except.ok inserted =>
      match lookupTable s table with
      | some (cols, existing) => Except.ok (setTable s table (cols, existing ++ inserted))
      | none => Except.error ()
  | Except.error e => Except.error e

-- =========================
-- Changelog flattening  (source lines 210-228)
-- =========================

/-- `r.get("author", {}).get(k) if isinstance(r.get("author"), dict) else None`. -/
def authorField (r : List (String × Json)) (k : String) : Json :=
  match lookupField r "author" with
  | some (Json.obj afs) => pyGet afs k
  | _ => Json.null

/-- The three `items`-derived values of one flat row:
`r.get("items", [{}])[0].get(key) if isinstance(r.get("items"), list) else None`
for `key` in `field`, `fromString`, `toString`. `none` models the raise:
`IndexError` when `items` is an empty list, `AttributeError` when its first
element is not a dict. -/
def flatItems (r : List (String × Json)) : Option (Json × Json × Json) :=
  match lookupField r "items" with
  | some (Json.arr l) =>
      match l with
      | [] => none
      | x :: _ => do
          let f ← getAttr x "field"
          let fr ← getAttr x "fromString"
          let t ← getAttr x "toString"
          some (f, fr, t)
  | _ => some (Json.null, Json.null, Json.null)

/-- One element of `flat_rows`: the fixed projection built for each
changelog Row; `none` when Python would raise while building it. -/
def flattenRow (r : List (String × Json)) : Option (List (String × Json)) :=
  match flatItems r with
  | none => none
  | some (f, fr, t) =>
      some [("issue_key", pyGet r "issue_key"),
            ("author_name", authorField r "displayName"),
            ("author_account_id", authorField r "accountId"),
            ("created", pyGet r "created"),
            ("field", f), ("from", fr), ("to", t)]

-- =========================
-- upload_dynamic  (source lines 188-228)
-- =========================

/-- Python `issue["key"]`: `none` models the `KeyError`/`TypeError` raise. -/
def pyIndex (issue : Json) (k : String) : Option Json :=
  match issue with
  | Json.obj fs => lookupField fs k
  | _ => none

/-- The tagging loop over the extracted rows of one issue:

```python
for r in rows:
    if isinstance(r, dict):
        r["issue_key"] = issue["key"]
        all_rows.append(r)
```

Returns the rows appended for this issue; `none` when `issue["key"]`
raises. -/
def tagLoop (issue : Json) : List Json → Option (List (List (String × Json)))
  | [] => some []
  | r :: rest =>
      match r with
      | Json.obj fs => do
          let key ← pyIndex issue "key"
          let more ← tagLoop issue rest
          some (setField fs "issue_key" key :: more)
      | _ => tagLoop issue rest

/-- Rows contributed by one issue to one extraction target:
`rows = extract_path(issue, path)` followed by the tagging loop when the
result is a list. -/
def tagIssueRows (issue : Json) (path : String) : Option (List (List (String × Json))) :=
  match extract_path issue path with
  | Json.arr rows => tagLoop issue rows
  | _ => some []

/-- `all_rows` gathered over every issue for one extraction target. -/
def gatherAll (issues : List Json) (path : String) :
    Option (List (List (String × Json))) :=
  match issues with
  | [] => some []
  | i :: rest => do
      let rs ← tagIssueRows i path
      let more ← gatherAll rest path
      some (rs ++ more)

/-- Observable log events of `upload_dynamic`. -/
inductive LogEvt where
  | warnNoRows (table : String)
  | created (table : String)
  | uploadedFlat (table : String) (n : Nat)
deriving DecidableEq

/-- The body of the `upload_dynamic` loop for one `(table, path)` target:
gather, skip-on-empty, infer, materialize, load, and — for the changelog
target — flatten and load the flat table. The `Option Unit` component is
the uncaught Python exception (there is no `try/except` in the loop). -/
def processTarget (fm : FailureModel) (s : Store) (issues : List Json)
    (table path : String) : Store × List LogEvt × Option Unit :=
  match gatherAll issues path with
  | none => (s, [], some ())
  | some allRows =>
      if allRows.isEmpty then (s, [LogEvt.warnNoRows table], none)
      else
        let cols := infer_columns (allRows.map Json.obj)
        match drop_and_create_table fm s table cols with
        | Except.error _ => (s, [], some ())
        | Except.ok s1 =>
            match insert_rows fm s1 table cols allRows with
            | Except.error _ => (s1, [LogEvt.created table], some ())
            | Except.ok s2 =>
                if table = "jira_changelog" then
                  match allRows.mapM flattenRow with
                  | none => (s2, [LogEvt.created table], some ())
                  | some flatRows =>
                      match flatRows with
                      | [] => (s2, [LogEvt.created table], none)
                      | fr0 :: _ =>
                          let flatCols := fr0.map Prod.fst
                          match drop_and_create_table fm s2 "jira_changelog_flat" flatCols with
                          | Except.error _ => (s2, [LogEvt.created table], some ())
                          | Except.ok s3 =>
                              match insert_rows fm s3 "jira_changelog_flat" flatCols flatRows with
                              | Except.error _ =>
                                  (s3, [LogEvt.created table,
                                        LogEvt.created "jira_changelog_flat"], some ())
                              | Except.ok s4 =>
                                  (s4, [LogEvt.created table,
                                        LogEvt.created "jira_changelog_flat",
                                        LogEvt.uploadedFlat "jira_changelog_flat"
                                          flatRows.length], none)
                else (s2, [LogEvt.created table], none)

/-- The `upload_dynamic` loop over the extraction targets. An exception in
one target's processing is not caught: it aborts the loop, and the
remaining targets are never reached. -/
def uploadDynamic (fm : FailureModel) (s : Store) (targets : List (String × String))
    (issues : List Json) : Store × List LogEvt × Option Unit :=
  match targets with
  | [] => (s, [], none)
  | (table, path) :: rest =>
      match processTarget fm s issues table path with
      | (s1, evts, some e) => (s1, evts, some e)
      | (s1, evts, none) =>
          match uploadDynamic fm s1 rest issues with
          | (s2, evts2, err2) => (s2, evts ++ evts2, err2)

/-- The static configuration mapping table names to extraction paths. -/
def DYNAMIC_TABLES : List (String × String) :=
  [("jira_subtasks", "fields.subtasks"), ("jira_changelog", "changelog.histories")]

/-- `Database.upload_dynamic(issues_json)` over the configured targets. -/
def upload_dynamic (fm : FailureModel) (s : Store) (issues : List Json) :
    Store × List LogEvt × Option Unit :=
  uploadDynamic fm s DYNAMIC_TABLES issues

-- =========================
-- In-place mutation of the input documents (C10)
-- =========================

/-- `r["issue_key"] = key` applied to one extracted element: dicts get the
key written, anything else is untouched. -/
def tagVal (key : Json) : Json → Json
  | Json.obj fs => Json.obj (setField fs "issue_key" key)
  | v => v

/-- Replace the value at a resolved path inside a document (the pure model
of the fact that the list `extract_path` returns is the very list object
stored in the document, so mutating its dict elements mutates the
document). -/
def updatePath : Json → List String → Json → Json
  | _, [], newV => newV
  | Json.obj fs, p :: ps, newV =>
      (match lookupField fs p with
       | none => Json.obj fs
       | some Json.null => Json.obj fs
       | some v => Json.obj (setField fs p (updatePath v ps newV)))
  | o, _ :: _, _ => o



-- =========================
-- Helper lemmas for the claim theorems
-- =========================

theorem lookupField_setField (fs : List (String × Json)) (k : String) (v : Json) :
    lookupField (setField fs k v) k = some v := by
  induction fs with
  | nil => simp [setField, lookupField]
  | cons kv rest ih =>
      obtain ⟨k', v'⟩ := kv
      by_cases h : k' = k
      · simp [setField, h, lookupField]
      · simp [setField, h, lookupField, ih]

theorem lookupTable_setTable (s : Store) (t : String) (st : TableState) :
    lookupTable (setTable s t st) t = some st := by
  induction s with
  | nil => simp [setTable, lookupTable]
  | cons e rest ih =>
      obtain ⟨t', st'⟩ := e
      by_cases h : t' = t
      · simp [setTable, h, lookupTable]
      · simp [setTable, h, lookupTable, ih]

theorem insertLoop_error (fm : FailureModel) (table : String) (columns : List String)
    (rows : List (List (String × Json)))
    (h : ∃ r ∈ rows, fm.insertFails table (cleanRow columns r) = true) :
    insertLoop fm table columns rows = Except.error () := by
  induction rows with
  | nil => simp at h
  | cons r rest ih =>
      obtain ⟨r0, hmem, hfail⟩ := h
      rcases List.mem_cons.mp hmem with rfl | hmem'
      · simp [insertLoop, hfail]
      · by_cases hr : fm.insertFails table (cleanRow columns r) = true
        · simp [insertLoop, hr]
        · simp [insertLoop, hr, ih ⟨r0, hmem', hfail⟩]

theorem tagLoop_key (issue : Json) (key : Json) (hk : pyIndex issue "key" = some key) :
    ∀ (rows : List Json) (rs : List (List (String × Json))),
      tagLoop issue rows = some rs →
      ∀ r ∈ rs, lookupField r "issue_key" = some key := by
  intro rows
  induction rows with
  | nil =>
      intro rs h
      simp [tagLoop] at h
      subst h
      simp
  | cons r rest ih =>
      intro rs h
      cases r with
      | obj fs =>
          simp [tagLoop, hk, Option.bind] at h
          rcases htail : tagLoop issue rest with _ | more
          · rw [htail] at h; simp at h
          · rw [htail] at h
            simp at h
            subst h
            intro x hx
            rcases List.mem_cons.mp hx with rfl | hx'
            · exact lookupField_setField fs "issue_key" key
            · exact ih more htail x hx'
      | null => exact ih rs h
      | bool b => exact ih rs h
      | num n => exact ih rs h
      | str s => exact ih rs h
      | arr l => exact ih rs h

theorem tagIssueRows_key (issue : Json) (path : String) (key : Json)
    (hk : pyIndex issue "key" = some key)
    (rs : List (List (String × Json))) (h : tagIssueRows issue path = some rs) :
    ∀ r ∈ rs, lookupField r "issue_key" = some key := by
  unfold tagIssueRows at h
  cases hext : extract_path issue path with
  | arr rows =>
      rw [hext] at h
      exact tagLoop_key issue key hk rows rs h
  | null => rw [hext] at h; simp at h; subst h; simp
  | bool b => rw [hext] at h; simp at h; subst h; simp
  | num n => rw [hext] at h; simp at h; subst h; simp
  | str s => rw [hext] at h; simp at h; subst h; simp
  | obj fs => rw [hext] at h; simp at h; subst h; simp

theorem updatePath_ne_null (v : Json) (ps : List String) (w : Json)
    (hv : v ≠ Json.null) (hw : w ≠ Json.null) : updatePath v ps w ≠ Json.null := by
  cases ps with
  | nil => cases v <;> simpa [updatePath] using hw
  | cons p ps' =>
      cases v with
      | obj fs =>
          unfold updatePath
          cases lookupField fs p with
          | none => simp
          | some u => cases u <;> simp
      | null => exact absurd rfl hv
      | bool b => simp [updatePath]
      | num n => simp [updatePath]
      | str s => simp [updatePath]
      | arr l => simp [updatePath]

theorem resolvePath_obj_inv (fs : List (String × Json)) (p : String) (ps : List String)
    (u : Json) (h : resolvePath (Json.obj fs) (p :: ps) = some u) :
    ∃ v0, lookupField fs p = some v0 ∧ v0 ≠ Json.null ∧ resolvePath v0 ps = some u := by
  simp only [resolvePath] at h
  cases hlk : lookupField fs p with
  | none => rw [hlk] at h; simp at h
  | some v0 =>
      rw [hlk] at h
      cases v0 with
      | null => simp at h
      | bool b => exact ⟨_, rfl, by simp, h⟩
      | num n => exact ⟨_, rfl, by simp, h⟩
      | str s => exact ⟨_, rfl, by simp, h⟩
      | arr l => exact ⟨_, rfl, by simp, h⟩
      | obj fs2 => exact ⟨_, rfl, by simp, h⟩

theorem updatePath_obj_some (fs : List (String × Json)) (p : String) (ps : List String)
    (w v0 : Json) (h : lookupField fs p = some v0) (hv : v0 ≠ Json.null) :
    updatePath (Json.obj fs) (p :: ps) w = Json.obj (setField fs p (updatePath v0 ps w)) := by
  cases v0 with
  | null => exact absurd rfl hv
  | bool b => simp [updatePath, h]
  | num n => simp [updatePath, h]
  | str s => simp [updatePath, h]
  | arr l => simp [updatePath, h]
  | obj fs2 => simp [updatePath, h]

theorem extractGo_obj_some (fs : List (String × Json)) (p : String) (ps : List String)
    (v : Json) (h : lookupField fs p = some v) (hv : v ≠ Json.null) :
    extractGo (Json.obj fs) (p :: ps) = extractGo v ps := by
  cases v with
  | null => exact absurd rfl hv
  | bool b => simp [extractGo, h]
  | num n => simp [extractGo, h]
  | str s => simp [extractGo, h]
  | arr l => simp [extractGo, h]
  | obj fs2 => simp [extractGo, h]

theorem extract_updatePath : ∀ (segs : List String) (o u w : Json),
    resolvePath o segs = some u → w ≠ Json.null →
    extractGo (updatePath o segs w) segs = w := by
  intro segs
  induction segs with
  | nil => intro o u w _ _; cases o <;> rfl
  | cons p ps ih =>
      intro o u w hres hw
      cases o with
      | obj fs =>
          obtain ⟨v0, hlk, hv0, hres2⟩ := resolvePath_obj_inv fs p ps u hres
          rw [updatePath_obj_some fs p ps w v0 hlk hv0]
          rw [extractGo_obj_some _ p ps _ (lookupField_setField fs p _)
            (updatePath_ne_null v0 ps w hv0 hw)]
          exact ih v0 u w hres2 hw
      | null => simp [resolvePath] at hres
      | bool b => simp [resolvePath] at hres
      | num n => simp [resolvePath] at hres
      | str s => simp [resolvePath] at hres
      | arr l => simp [resolvePath] at hres



theorem scanSemis_append : ∀ (a : List Char) (q : Bool) (b : List Char),
    scanSemis q (a ++ b)
      = ((scanSemis (scanSemis q a).1 b).1,
         (scanSemis q a).2 + (scanSemis (scanSemis q a).1 b).2) := by
  intro a
  induction a with
  | nil => intro q b; simp [scanSemis]
  | cons c cs ih =>
      intro q b
      cases q with
      | true =>
          by_cases h : c = '\"' <;> · simp [scanSemis, h, ih]
      | false =>
          by_cases h : c = '\"'
          · simp [scanSemis, h, ih]
          · by_cases h2 : c = ';'
            · simp [scanSemis, h, h2, ih]
              omega
            · simp [scanSemis, h, h2, ih]

theorem scanSemis_quoted (s : List Char) (h : '\"' ∉ s) :
    scanSemis true s = (true, 0) := by
  induction s with
  | nil => rfl
  | cons c cs ih =>
      simp only [List.mem_cons, not_or] at h
      have hc : c ≠ '\"' := fun hq => h.1 hq.symm
      simp [scanSemis, hc, ih h.2]

theorem quoteIdent_data (c : String) :
    (quoteIdent c).data = '\"' :: (c.data ++ ['\"']) := by
  simp [quoteIdent]

theorem scan_quoteIdent (c : String) (h : '\"' ∉ c.data) :
    scanSemis false (quoteIdent c).data = (false, 0) := by
  rw [quoteIdent_data]
  show scanSemis false ('\"' :: (c.data ++ ['\"'])) = (false, 0)
  simp only [scanSemis, if_pos rfl]
  rw [scanSemis_append, scanSemis_quoted c.data h]
  rfl

theorem lexIdentBody_no_quote (s : List Char) (h : '\"' ∉ s) :
    lexIdentBody (s ++ ['\"']) = some (s, []) := by
  induction s with
  | nil => rfl
  | cons c cs ih =>
      simp only [List.mem_cons, not_or] at h
      have hc : c ≠ '\"' := fun hq => h.1 hq.symm
      rw [lexIdentBody.eq_def]
      simp [hc, ih h.2]

theorem lexQuotedIdent_quoteIdent (c : String) (h : '\"' ∉ c.data) :
    lexQuotedIdent (quoteIdent c).data = some (c, []) := by
  rw [quoteIdent_data]
  simp [lexQuotedIdent, lexIdentBody_no_quote c.data h, mk_data_eq]

theorem scan_colsSql : ∀ (cols : List String),
    (∀ c ∈ cols, '\"' ∉ c.data) → scanSemis false (colsSql cols).data = (false, 0)
  | [] => by intro _; rfl
  | [c] => by
      intro h
      have hc := h c (by simp)
      simp only [colsSql, List.map_cons, List.map_nil, joinSep, String.data_append]
      rw [scanSemis_append, scan_quoteIdent c hc]
      rfl
  | c :: d :: rest => by
      intro h
      have hc := h c (by simp)
      have hrest : ∀ x ∈ d :: rest, '\"' ∉ x.data := fun x hx => h x (List.mem_cons_of_mem c hx)
      have ihrec := scan_colsSql (d :: rest) hrest
      have hexp : colsSql (c :: d :: rest)
          = (quoteIdent c ++ " TEXT") ++ ", " ++ colsSql (d :: rest) := by
        simp [colsSql, joinSep]
      rw [hexp]
      simp only [String.data_append]
      rw [scanSemis_append, scanSemis_append, scanSemis_append, scan_quoteIdent c hc]
      simp only [scanSemis_append] at ihrec ⊢
      rw [show scanSemis (false, 0).1 " TEXT".data = (false, 0) from rfl]
      simp [show scanSemis false [',', ' '] = (false, 0) from rfl, ihrec]

theorem scan_createSql (table : String) (cols : List String)
    (ht : '\"' ∉ table.data) (hc : ∀ c ∈ cols, '\"' ∉ c.data) :
    scanSemis false (createSql table cols).data = (false, 2) := by
  have h1 : scanSemis false ("DROP TABLE IF EXISTS ").data = (false, 0) := rfl
  have h2 : scanSemis false ("; CREATE TABLE ").data = (false, 1) := rfl
  have h3 : scanSemis false (" (").data = (false, 0) := rfl
  have h4 : scanSemis false (");").data = (false, 1) := rfl
  have hq := scan_quoteIdent table ht
  have hcols := scan_colsSql cols hc
  simp only [createSql, String.data_append]
  rw [scanSemis_append, scanSemis_append, scanSemis_append, scanSemis_append,
    scanSemis_append, scanSemis_append, h1]
  simp only [h1, hq, h2, h3, h4, hcols]



-- =========================
-- Concrete inputs used by witnesses and counterexamples
-- =========================

/-- A failure model on which no store operation fails. -/
def fmOk : FailureModel := { createFails := fun _ => false, insertFails := fun _ _ => false }

/-- A failure model on which the store rejects creating `jira_subtasks`
and nothing else. -/
def fmC2 : FailureModel :=
  { createFails := fun t => t == "jira_subtasks", insertFails := fun _ _ => false }

/-- One issue carrying both a subtask and a changelog history. -/
def issuesC2 : List Json :=
  [Json.obj [("key", Json.str "X-1"),
    ("fields", Json.obj [("subtasks", Json.arr [Json.obj [("id", Json.str "10")]])]),
    ("changelog", Json.obj [("histories", Json.arr [Json.obj [("created", Json.str "c")]])])]]

/-- A failure model on which every row insert into table `tbl` fails. -/
def fmC7 : FailureModel :=
  { createFails := fun _ => false, insertFails := fun t _ => t == "tbl" }

/-- An externally supplied column name carrying a quote-and-semicolon
payload. -/
def badIdent : String := "a\"; DROP TABLE \"x"

/-- A changelog row whose history entry changed two fields at once. -/
def rowC8 : List (String × Json) :=
  [("issue_key", Json.str "X-1"),
   ("created", Json.str "2020-01-01"),
   ("items", Json.arr
     [Json.obj [("field", Json.str "status"),
        ("fromString", Json.str "Open"), ("toString", Json.str "Done")],
      Json.obj [("field", Json.str "priority")]])]

/-- An issue with no `fields.subtasks` path at all. -/
def issuesC9 : List Json := [Json.obj [("key", Json.str "X-1")]]

/-- An issue whose subtask already carries an `issue_key` entry. -/
def issueC10 : Json :=
  Json.obj [("key", Json.str "X-1"),
    ("fields", Json.obj [("subtasks",
      Json.arr [Json.obj [("issue_key", Json.str "OLD"), ("id", Json.str "1")]])])]

-- =========================
-- Claim theorems
-- =========================

/-- C1: for every row `r` and column `c` in the column list, the value
`insert_rows` binds before insertion is null when `c` is missing from `r`;
it is the deterministic JSON text `json.dumps(v, ensure_ascii=False)` when
the value is an object or array, and that text deserializes to a value
deep-equal to the original; it is the raw value otherwise; a container is
never bound directly; and the encoding leaves every non-ASCII character
(code point ≥ 128) unescaped. -/
theorem insert_rows_clean_spec (r : List (String × Json)) (c : String) :
    (lookupField r c = none → cleanValue r c = Json.null)
  ∧ (∀ v, lookupField r c = some v → v.isContainer = true →
      cleanValue r c = Json.str (dumps v) ∧ loads (dumps v) = some v)
  ∧ (∀ v, lookupField r c = some v → v.isContainer = false → cleanValue r c = v)
  ∧ (cleanValue r c).isContainer = false
  ∧ (∀ ch : Char, 128 ≤ ch.toNat → escChar ch = [ch]) := by
  refine ⟨?_, ?_, ?_, ?_, ?_⟩
  · intro h
    simp [cleanValue, pyGet, h, Json.isContainer]
  · intro v hv hcont
    exact ⟨by simp [cleanValue, pyGet, hv, hcont], loads_dumps v⟩
  · intro v hv hcont
    simp [cleanValue, pyGet, hv, hcont]
  · unfold cleanValue
    by_cases h : (pyGet r c).isContainer = true
    · rw [if_pos h]; rfl
    · rw [if_neg h]
      simp only [Bool.not_eq_true] at h
      exact h
  · intro ch hch
    have h1 : ch ≠ '\"' := by rintro rfl; exact absurd hch (by decide)
    have h2 : ch ≠ '\\' := by rintro rfl; exact absurd hch (by decide)
    have h3 : ch ≠ '\n' := by rintro rfl; exact absurd hch (by decide)
    have h4 : ch ≠ '\t' := by rintro rfl; exact absurd hch (by decide)
    have h5 : ch ≠ '\r' := by rintro rfl; exact absurd hch (by decide)
    have h6 : ch ≠ Char.ofNat 8 := by rintro rfl; exact absurd hch (by decide)
    have h7 : ch ≠ Char.ofNat 12 := by rintro rfl; exact absurd hch (by decide)
    have h8 : ¬ ch.toNat < 32 := by omega
    unfold escChar
    rw [if_neg h1, if_neg h2, if_neg h3, if_neg h4, if_neg h5, if_neg h6, if_neg h7,
      if_neg h8]

theorem insert_rows_clean_spec_witness :
    cleanValue [("a", Json.arr [Json.str "é"])] "a"
      = Json.str (dumps (Json.arr [Json.str "é"]))
  ∧ loads (dumps (Json.arr [Json.str "é"])) = some (Json.arr [Json.str "é"]) :=
  (insert_rows_clean_spec [("a", Json.arr [Json.str "é"])] "a").2.1
    (Json.arr [Json.str "é"]) rfl rfl

/-- C2 counterexample: the claim says a failure in one target is caught and
the remaining targets still run. With a store that rejects only the
`jira_subtasks` CREATE, `upload_dynamic` ends with the exception uncaught
(error component `some ()`), the `jira_changelog` target is never
processed — no event is logged at all — and no `jira_changelog` table
exists in the store. -/
theorem upload_dynamic_no_containment_counterexample :
    upload_dynamic fmC2 [] issuesC2 = ([], [], some ())
  ∧ lookupTable (upload_dynamic fmC2 [] issuesC2).1 "jira_changelog" = none
  ∧ (upload_dynamic fmC2 [] issuesC2).2.1 = [] := ⟨rfl, rfl, rfl⟩

/-- C2 (amended): `upload_dynamic` has no `try/except` around a target:
when processing a target raises (materialize, load, or flatten), the
exception propagates, the loop stops, and the remaining targets are never
processed. -/
theorem upload_dynamic_abort_on_target_failure (fm : FailureModel) (s : Store)
    (table path : String) (rest : List (String × String)) (issues : List Json)
    (s1 : Store) (evts : List LogEvt)
    (h : processTarget fm s issues table path = (s1, evts, some ())) :
    uploadDynamic fm s ((table, path) :: rest) issues = (s1, evts, some ()) := by
  simp [uploadDynamic, h]

theorem upload_dynamic_abort_on_target_failure_witness :
    uploadDynamic fmC2 [] [("jira_subtasks", "fields.subtasks"),
      ("jira_changelog", "changelog.histories")] issuesC2 = ([], [], some ()) :=
  upload_dynamic_abort_on_target_failure fmC2 [] "jira_subtasks" "fields.subtasks"
    [("jira_changelog", "changelog.histories")] issuesC2 [] [] rfl

/-- C3 counterexample: the `f'"{c}"'` quoting does not escape a double
quote already inside the name. For `badIdent` the SQL lexer reads only
`a` as the identifier with injected text left over, and the statement text
built by `drop_and_create_table` contains three top-level semicolons
instead of two — the extra `DROP TABLE "x"` became a statement of its
own. -/
theorem quote_ident_injection_counterexample :
    lexQuotedIdent ((quoteIdent badIdent).data) ≠ some (badIdent, [])
  ∧ scanSemis false (createSql "t" [badIdent]).data = (false, 3)
  ∧ scanSemis false (createSql "t" ["col"]).data = (false, 2) :=
  ⟨by decide, rfl, rfl⟩

/-- C3 (amended): for table and column names containing no double quote —
whatever other characters they contain, semicolons included — the built
SQL treats each quoted name as one identifier: the quoted fragment lexes
back to exactly the original name with nothing left over, and the
`drop_and_create_table` text keeps exactly its two top-level statements. -/
theorem quoted_ident_safe_without_quotes (table : String) (cols : List String)
    (ht : '\"' ∉ table.data) (hc : ∀ c ∈ cols, '\"' ∉ c.data) :
    lexQuotedIdent ((quoteIdent table).data) = some (table, [])
  ∧ (∀ c ∈ cols, lexQuotedIdent ((quoteIdent c).data) = some (c, []))
  ∧ scanSemis false (createSql table cols).data = (false, 2) :=
  ⟨lexQuotedIdent_quoteIdent table ht,
   fun c hmem => lexQuotedIdent_quoteIdent c (hc c hmem),
   scan_createSql table cols ht hc⟩

theorem quoted_ident_safe_without_quotes_witness :
    lexQuotedIdent ((quoteIdent "t;x").data) = some ("t;x", [])
  ∧ scanSemis false (createSql "t;x" ["a;b", "c d"]).data = (false, 2) :=
  ⟨(quoted_ident_safe_without_quotes "t;x" ["a;b", "c d"] (by decide) (by decide)).1,
   (quoted_ident_safe_without_quotes "t;x" ["a;b", "c d"] (by decide) (by decide)).2.2⟩

/-- C4: the flattening projection is not total. On a changelog row whose
`items` value is an empty list, `r.get("items", [{}])[0]` raises
`IndexError` (the `[{}]` default is dead: the `isinstance` guard already
passed for the real empty list), modelled as `none`; the claimed null
filling happens only when `items` is absent or not a list (second
conjunct). -/
theorem flatten_empty_items_raises :
    flattenRow [("items", Json.arr [])] = none
  ∧ flattenRow [("items", Json.str "x")]
      = some [("issue_key", Json.null), ("author_name", Json.null),
              ("author_account_id", Json.null), ("created", Json.null),
              ("field", Json.null), ("from", Json.null), ("to", Json.null)] :=
  ⟨rfl, rfl⟩

/-- C5: `extract_path` equals strict path resolution with the empty list
as the fallback: whenever some traversal segment is absent, maps to null,
or is looked up against a non-mapping, the result is `[]`; when every
segment resolves, the final value is returned as-is, whatever its type;
and the function is total (never raises). -/
theorem extract_path_spec (o : Json) (path : String) :
    extract_path o path = (resolvePath o (pySplit '.' path)).getD (Json.arr []) :=
  extractGo_resolve (pySplit '.' path) o

/-- C6 counterexample: `infer_columns` of a list holding one empty dict is
empty although the list does contain a mapping-typed element, refuting
"empty iff R contains no mapping-typed element". -/
theorem infer_columns_empty_obj_counterexample :
    infer_columns [Json.obj []] = []
  ∧ Json.obj [] ∈ [Json.obj []]
  ∧ (Json.obj []).isObj = true :=
  ⟨rfl, by simp, rfl⟩

/-- C6 (amended): viewed as a set, `infer_columns rows` is exactly the
union of the key sets of the mapping-typed elements (non-mappings
contribute nothing), and it is empty iff every mapping-typed element of
`rows` has an empty key set. -/
theorem infer_columns_spec (rows : List Json) :
    (∀ c, c ∈ infer_columns rows ↔ ∃ fs, Json.obj fs ∈ rows ∧ c ∈ fs.map Prod.fst)
  ∧ (infer_columns rows = [] ↔ ∀ fs, Json.obj fs ∈ rows → fs = []) := by
  refine ⟨mem_infer_columns rows, ?_, ?_⟩
  · intro hemp fs hmem
    rcases fs with _ | ⟨⟨k, v⟩, rest⟩
    · rfl
    · exfalso
      have hk : k ∈ infer_columns rows :=
        (mem_infer_columns rows k).mpr ⟨(k, v) :: rest, hmem, by simp⟩
      rw [hemp] at hk
      simp at hk
  · intro hall
    rw [List.eq_nil_iff_forall_not_mem]
    intro c hmem
    obtain ⟨fs, hfs, hkey⟩ := (mem_infer_columns rows c).mp hmem
    rw [hall fs hfs] at hkey
    simp at hkey

theorem infer_columns_spec_witness :
    "a" ∈ infer_columns [Json.obj [("a", Json.null)], Json.str "x"] :=
  (infer_columns_spec [Json.obj [("a", Json.null)], Json.str "x"]).1 "a" |>.mpr
    ⟨[("a", Json.null)], by simp, by simp⟩

/-- C7: when the store accepts the CREATE but rejects some row of the
call, the whole table load aborts: `insert_rows` raises, and because all
its inserts run in one transaction, the rows already inserted are rolled
back — the post-state is exactly the freshly materialized empty table. -/
theorem insert_rows_abort_rolls_back (fm : FailureModel) (s : Store) (table : String)
    (cols : List String) (rows : List (List (String × Json)))
    (hcreate : fm.createFails table = false)
    (hfail : ∃ r ∈ rows, fm.insertFails table (cleanRow cols r) = true) :
    drop_and_create_table fm s table cols = Except.ok (setTable s table (cols, []))
  ∧ insert_rows fm (setTable s table (cols, [])) table cols rows = Except.error ()
  ∧ lookupTable (setTable s table (cols, [])) table = some (cols, []) := by
  refine ⟨?_, ?_, lookupTable_setTable s table (cols, [])⟩
  · simp [drop_and_create_table, hcreate]
  · simp [insert_rows, insertLoop_error fm table cols rows hfail]

theorem insert_rows_abort_rolls_back_witness :
    drop_and_create_table fmC7 [] "tbl" ["a"] = Except.ok (setTable [] "tbl" (["a"], []))
  ∧ insert_rows fmC7 (setTable [] "tbl" (["a"], [])) "tbl" ["a"] [[("a", Json.null)]]
      = Except.error ()
  ∧ lookupTable (setTable [] "tbl" (["a"], [])) "tbl" = some (["a"], []) :=
  insert_rows_abort_rolls_back fmC7 [] "tbl" ["a"] [[("a", Json.null)]] rfl
    ⟨[("a", Json.null)], by simp, rfl⟩

/-- C8: for a changelog row whose `items` list has two or more elements,
the flattened row's `field`, `from` and `to` are computed from the first
element only — the conclusion mentions neither `y` nor `tail`, so every
later element contributes nothing. -/
theorem flatten_uses_first_item_only (r : List (String × Json))
    (x : List (String × Json)) (y : Json) (tail : List Json)
    (hitems : lookupField r "items" = some (Json.arr (Json.obj x :: y :: tail))) :
    flattenRow r
      = some [("issue_key", pyGet r "issue_key"),
              ("author_name", authorField r "displayName"),
              ("author_account_id", authorField r "accountId"),
              ("created", pyGet r "created"),
              ("field", pyGet x "field"),
              ("from", pyGet x "fromString"),
              ("to", pyGet x "toString")] := by
  unfold flattenRow flatItems
  rw [hitems]
  simp [getAttr]

theorem flatten_uses_first_item_only_witness :
    flattenRow rowC8
      = some [("issue_key", pyGet rowC8 "issue_key"),
              ("author_name", authorField rowC8 "displayName"),
              ("author_account_id", authorField rowC8 "accountId"),
              ("created", pyGet rowC8 "created"),
              ("field", pyGet [("field", Json.str "status"),
                ("fromString", Json.str "Open"), ("toString", Json.str "Done")] "field"),
              ("from", pyGet [("field", Json.str "status"),
                ("fromString", Json.str "Open"), ("toString", Json.str "Done")] "fromString"),
              ("to", pyGet [("field", Json.str "status"),
                ("fromString", Json.str "Open"), ("toString", Json.str "Done")] "toString")] :=
  flatten_uses_first_item_only rowC8
    [("field", Json.str "status"), ("fromString", Json.str "Open"),
      ("toString", Json.str "Done")]
    (Json.obj [("field", Json.str "priority")]) [] rfl

/-- C9: a target whose extraction gathers zero rows is skipped entirely:
only a warning is logged, the store is unchanged (no table dropped,
created, or written for it), and the loop continues with the remaining
targets. -/
theorem upload_dynamic_skip_empty_target (fm : FailureModel) (s : Store)
    (table path : String) (rest : List (String × String)) (issues : List Json)
    (h : gatherAll issues path = some []) :
    processTarget fm s issues table path = (s, [LogEvt.warnNoRows table], none)
  ∧ uploadDynamic fm s ((table, path) :: rest) issues
      = ((uploadDynamic fm s rest issues).1,
         LogEvt.warnNoRows table :: (uploadDynamic fm s rest issues).2.1,
         (uploadDynamic fm s rest issues).2.2) := by
  have h1 : processTarget fm s issues table path
      = (s, [LogEvt.warnNoRows table], none) := by
    simp [processTarget, h]
  refine ⟨h1, ?_⟩
  rcases hrec : uploadDynamic fm s rest issues with ⟨s2, evts2, err2⟩
  simp [uploadDynamic, h1, hrec]

theorem upload_dynamic_skip_empty_target_witness :
    processTarget fmOk [] issuesC9 "jira_subtasks" "fields.subtasks"
      = ([], [LogEvt.warnNoRows "jira_subtasks"], none) :=
  (upload_dynamic_skip_empty_target fmOk [] "jira_subtasks" "fields.subtasks" []
    issuesC9 rfl).1

/-- C10: every row gathered for an issue carries `issue_key` equal to the
parent issue's `key` value; the assignment `r["issue_key"] = issue["key"]`
overwrites unconditionally whatever `issue_key` value the sub-record
already contained; and because the assignment mutates the extracted
sub-records in place, the input document itself, re-read at the same path
after the update, yields exactly the tagged rows — the original
`issue_key` data inside the source JSON is gone. -/
theorem gathered_rows_issue_key_overwrite (issue : Json) (path : String) (key : Json)
    (hkey : pyIndex issue "key" = some key) :
    (∀ rs, tagIssueRows issue path = some rs →
        ∀ r ∈ rs, lookupField r "issue_key" = some key)
  ∧ (∀ fs old, lookupField fs "issue_key" = some old →
        lookupField (setField fs "issue_key" key) "issue_key" = some key)
  ∧ (∀ l, resolvePath issue (pySplit '.' path) = some (Json.arr l) →
        extract_path
            (updatePath issue (pySplit '.' path) (Json.arr (l.map (tagVal key)))) path
          = Json.arr (l.map (tagVal key))) := by
  refine ⟨fun rs h => tagIssueRows_key issue path key hkey rs h,
    fun fs old _ => lookupField_setField fs "issue_key" key, ?_⟩
  intro l hres
  show extractGo (updatePath issue (pySplit '.' path)
      (Json.arr (l.map (tagVal key)))) (pySplit '.' path)
    = Json.arr (l.map (tagVal key))
  exact extract_updatePath (pySplit '.' path) issue (Json.arr l) _ hres (by simp)

theorem gathered_rows_issue_key_overwrite_witness :
    lookupField (setField [("issue_key", Json.str "OLD"), ("id", Json.str "1")]
        "issue_key" (Json.str "X-1")) "issue_key" = some (Json.str "X-1") :=
  (gathered_rows_issue_key_overwrite issueC10 "fields.subtasks" (Json.str "X-1") rfl).2.1
    [("issue_key", Json.str "OLD"), ("id", Json.str "1")] (Json.str "OLD") rfl


end JiraEtl
